import Mathlib

/-!
# Discretion: table navigation, search and secret resolution

A shallow embedding of `main.go` (package `main`) and `secrets/main.go`
(package `secrets`) of the `discretion` terminal browser, followed by the
properties of its window/cursor arithmetic, its key handling and its secret
lookup.

Conventions of the embedding.

* A Go `string` is its byte sequence (`GoString`); `len` and slicing act on
  bytes, as in Go.
* A Go `int` is an `Int`.  On 64-bit inputs the embedded functions agree with
  the machine arithmetic: the cursor is decremented only when positive and
  incremented only below the dataset length, the start is incremented only
  when at most the dataset length, sums add a height of at most ten to a start
  of at most the dataset length, and `m.start-1` is only compared with a cursor
  that is at most the dataset length, which differs from it with and without
  wrap-around at the least value.
* A run-time fault (index or slice bounds out of range) is a value of `Panic`
  returned through `Except`.
* The goroutine started by `SelectRow` is recorded in the result of `Update`
  (`Outcome.spawned`) together with the row it captured.
-/

namespace Discretion

/-! ## Strings -/

/-- A Go string, as the sequence of its bytes. -/
abbrev GoString := List UInt8

/-- The UTF-8 bytes of a string literal of the source. -/
def str (s : String) : GoString := s.data.flatMap String.utf8EncodeChar

/-- Run-time faults of the embedded code. -/
inductive Panic where
  | indexOutOfRange
  | sliceBounds
deriving DecidableEq

/-! ## Data model (`main.go`) -/

abbrev Row := List GoString

abbrev Rows := List Row

structure Column where
  Title : GoString
  Width : Int
deriving DecidableEq

inductive ViewType where
  | Vaults
  | Secrets
deriving DecidableEq

structure View where
  Header : ViewType
  Rows : Rows
  Cols : List Column
deriving DecidableEq

/-- The map `map[ViewType]*View` of the model.  `main` creates it with both keys
and no code path adds or removes a key, so it is a pair of views. -/
structure ViewMap where
  vaults : View
  secrets : View
deriving DecidableEq

def ViewMap.get (vm : ViewMap) : ViewType → View
  | .Vaults => vm.vaults
  | .Secrets => vm.secrets

def ViewMap.set (vm : ViewMap) (t : ViewType) (v : View) : ViewMap :=
  match t with
  | .Vaults => { vm with vaults := v }
  | .Secrets => { vm with secrets := v }

structure model where
  view : ViewMap
  currentView : ViewType
  searchStarted : Bool
  searchString : GoString
  cursor : Int
  height : Int
  start : Int
  end_ : Int
deriving DecidableEq

/-- The method `Rows.String`: the fields of row `i` joined by one space. -/
def Rows.String (r : Rows) (i : Nat) : Except Panic GoString :=
  match r[i]? with
  | some row => .ok (List.intercalate (str " ") row)
  | none => .error .indexOutOfRange

/-- The method `Rows.Len`. -/
def Rows.Len (r : Rows) : Int := (r.length : Int)

def model.GetCols (m : model) : List Column := (m.view.get m.currentView).Cols

def model.GetRows (m : model) : Rows := (m.view.get m.currentView).Rows

def model.SetCols (m : model) (cols : List Column) (view : ViewType) : model :=
  { m with view := m.view.set view { m.view.get view with Cols := cols } }

def model.ClearRows (m : model) : model :=
  { m with view := m.view.set m.currentView { m.view.get m.currentView with Rows := [] } }

def model.SetRows (m : model) (rows : Rows) (view : ViewType) : model :=
  { m with view := m.view.set view { m.view.get view with Rows := rows } }

/-- The method `model.UpdateRows`, statement by statement: each assignment to a field of
`m` is a rebinding of the local of the same name, and the fields are written
back at the end. -/
def model.UpdateRows (m : model) : model :=
  let n : Int := (m.GetRows.length : Int)
  let height : Int := if n ≤ 10 then n else 10
  let start : Int := if m.start > n then n else m.start
  let end_ : Int := start + height
  let cursor : Int := if m.cursor > n then n else m.cursor
  let start : Int := if cursor = 0 then 0 else start
  let start : Int := if cursor = start - 1 ∧ cursor > 0 then start - 1 else start
  let start : Int := if cursor = end_ then start + 1 else start
  let end_ : Int := start + height
  let end_ : Int := if end_ > n then n else end_
  { m with cursor := cursor, height := height, start := start, end_ := end_ }

/-- The method `model.GetSelectedRow`: `nil` on an empty dataset, else the row at the cursor. -/
def model.GetSelectedRow (m : model) : Except Panic (Option Row) :=
  if m.GetRows.length = 0 then .ok none
  else if m.cursor < 0 then .error .indexOutOfRange
  else
    match m.GetRows[m.cursor.toNat]? with
    | some row => .ok (some row)
    | none => .error .indexOutOfRange

/-- The method `model.GetRowsRange`: the slice `rows[start:end]`.  Go checks the bounds of a
slice expression against the capacity, which is at least the length used here. -/
def model.GetRowsRange (m : model) : Except Panic (List Row) :=
  if m.GetRows.length = 0 then .ok []
  else if 0 ≤ m.start ∧ m.start ≤ m.end_ ∧ m.end_ ≤ (m.GetRows.length : Int) then
    .ok ((m.GetRows.drop m.start.toNat).take (m.end_.toNat - m.start.toNat))
  else .error .sliceBounds

def model.ToggleView (m : model) : model :=
  if m.currentView = .Vaults then { m with currentView := .Secrets }
  else { m with currentView := .Vaults }

def model.SwitchView (m : model) (view : ViewType) : model :=
  { m with currentView := view }

/-- The method `model.ProcessInput`: appends the key text to the query; the command is `nil`. -/
def model.ProcessInput (m : model) (key : GoString) : model :=
  { m with searchString := m.searchString ++ key }

/-! ## Package `secrets` -/

/-- The struct `secrets.Vault` (`secrets/types.go`), without the unused `Secrets` field. -/
structure Vault where
  Subscription : GoString
  ResourceGroup : GoString
  ID : GoString
  Url : GoString
  Name : GoString
  Region : GoString
deriving DecidableEq

/-- The struct `secrets.SecretInfo` (`secrets/types.go`). -/
structure SecretInfo where
  Vault : GoString
  VaultUrl : GoString
  Name : GoString
  Version : GoString
  Identifier : GoString
  Enabled : Bool
  Value : GoString
deriving DecidableEq

/-- The package variable `secrets : map[string]*SecretInfo`, as its lookup
function; a key that is absent and a key bound to `nil` both read as `none`,
which is all `TryGetSecret` distinguishes. -/
abbrev SecretMap := GoString → Option SecretInfo

/-- The two calls `TryGetSecret` makes into the Azure SDK.  `NewClient url` is
`true` when `azsecrets.NewClient(url, credential, nil)` returns a nil error;
`GetSecret url name version` is the fetched value, `none` for a non-nil error. -/
structure Backend where
  NewClient : GoString → Bool
  GetSecret : GoString → GoString → GoString → Option GoString

/-- What one call of `TryGetSecret` returns and leaves behind: the two results,
the map afterwards (the record is updated through its pointer) and the
`GetSecret` round trips made, each as (vault URL, name, version). -/
structure Resolved where
  secretInfo : Option SecretInfo
  found : Bool
  secrets : SecretMap
  calls : List (GoString × GoString × GoString)

/-- The function `secrets.TryGetSecret`. -/
def TryGetSecret (b : Backend) (secrets : SecretMap) (version : GoString) : Resolved :=
  match secrets version with
  | none => ⟨none, false, secrets, []⟩
  | some secretInfo =>
    if b.NewClient secretInfo.VaultUrl = false then ⟨none, false, secrets, []⟩
    else
      let secretInfo : SecretInfo :=
        match b.GetSecret secretInfo.VaultUrl secretInfo.Name secretInfo.Version with
        | none => { secretInfo with Value := str "" }
        | some value => { secretInfo with Value := value }
      ⟨some secretInfo, true,
        fun k => if k = version then some secretInfo else secrets k,
        [(secretInfo.VaultUrl, secretInfo.Name, secretInfo.Version)]⟩

/-! ## Fuzzy matching -/

/-- One element of `fuzzy.Matches`. -/
structure Match where
  Str : GoString
  Index : Nat
  Score : Int
deriving DecidableEq

/-- Whether `pattern` is a subsequence of `s`: the match test of `FindFrom` below. -/
def isSubsequence : GoString → GoString → Bool
  | [], _ => true
  | _ :: _, [] => false
  | p :: ps, c :: cs => if p = c then isSubsequence ps cs else isSubsequence (p :: ps) cs

/-- Modelled from the spec: `fuzzy.FindFrom` belongs to the imported package
`github.com/sahilm/fuzzy`, whose source is not part of the repository.  The
FilterEngine of the spec "ranks rows by fuzzy subsequence match against `query`;
returns only matching rows, ordered by descending match score" with stable
ties, and its design notes record that an empty query is a real, empty-matching
filter.  `data` is the `Source`: the strings `data.String(i)` for
`i < data.Len()`.  The scoring function is not described and is taken as
`score`. -/
def FindFrom (score : GoString → GoString → Int) (pattern : GoString)
    (data : List GoString) : List Match :=
  if pattern = [] then []
  else
    (data.enum.filterMap fun p =>
        if isSubsequence pattern p.2 then some ⟨p.2, p.1, score pattern p.2⟩ else none).mergeSort
      fun a b => decide (a.Score ≥ b.Score)

/-! ## The controller (`main.go`) -/

/-- What `Update` reads outside the model: the results of `secrets.GetVaults()`
and of ranging over `secrets.GetSecrets()` (in the order that range yields), and
the scoring function of the fuzzy matcher. -/
structure Env where
  vaults : List Vault
  secrets : List SecretInfo
  score : GoString → GoString → Int

/-- A `tea.Msg`: a `tea.KeyMsg` with the text of its `String()`, or any other message. -/
inductive Msg where
  | KeyMsg (key : GoString)
  | other
deriving DecidableEq

/-- A `tea.Cmd` as `Update` returns it: `nil` or `tea.Quit`. -/
inductive Cmd where
  | nil
  | Quit
deriving DecidableEq

/-- The result of `Update`: the returned model and command, and the row captured
by the goroutine `SelectRow` started (resolving `row[2]` through
`secrets.TryGetSecret` and writing the value to the clipboard), if any. -/
structure Outcome where
  m : model
  cmd : Cmd
  spawned : Option Row
deriving DecidableEq

/-- The slice expression `s[:hi]` on a string. -/
def sliceTo (s : GoString) (hi : Int) : Except Panic GoString :=
  if 0 ≤ hi ∧ hi ≤ (s.length : Int) then .ok (s.take hi.toNat) else .error .sliceBounds

/-- The method `model.FindRows`. -/
def model.FindRows (env : Env) (m : model) (search : GoString) : Except Panic model := do
  let found := FindFrom env.score search (m.GetRows.map fun row => List.intercalate (str " ") row)
  let rows ← found.mapM fun mt =>
    match m.GetRows[mt.Index]? with
    | some row => Except.ok row
    | none => Except.error Panic.indexOutOfRange
  pure (m.SetRows rows m.currentView)

/-- The method `model.Refresh`. -/
def model.Refresh (env : Env) (m : model) : model :=
  let rows : Rows := env.vaults.map fun vault =>
    [vault.Name, vault.Region, vault.ResourceGroup, vault.Subscription]
  let m := m.SetRows rows .Vaults
  let rows : Rows := (env.secrets.filter fun secret => secret.Enabled).map fun secret =>
    [secret.Vault, secret.Name, secret.Identifier]
  m.SetRows rows .Secrets

/-- The method `model.SelectRow`: the returned command (always `nil` at the time of the
return) and the row handed to the goroutine it starts in the Secrets view. -/
def model.SelectRow (m : model) : Except Panic (Cmd × Option Row) := do
  match (← m.GetSelectedRow) with
  | none => pure (.nil, none)
  | some row =>
    match m.currentView with
    | .Vaults => pure (.nil, none)
    | .Secrets => pure (.nil, some row)

/-- The first block of `model.Update`, run when `m.searchStarted` holds. -/
def model.searchKeys (env : Env) (m : model) (msg : Msg) : Except Panic model :=
  match msg with
  | .other => pure m
  | .KeyMsg key =>
    if key = str "esc" then
      pure { m with searchString := str "", searchStarted := false }
    else if key = str "enter" then do
      let m ← m.FindRows env m.searchString
      pure { m with searchString := str "", searchStarted := false }
    else if key = str "backspace" then do
      let s ← sliceTo m.searchString ((m.searchString.length : Int) - 1)
      pure { m with searchString := s }
    else
      pure (m.ProcessInput key)

/-- The method `model.Update`: the search block, then the Idle block entered when
`m.searchStarted` is false after it, then `UpdateRows`. -/
def model.Update (env : Env) (m : model) (msg : Msg) : Except Panic Outcome := do
  let m ← if m.searchStarted then m.searchKeys env msg else pure m
  if m.searchStarted then
    pure ⟨m.UpdateRows, .nil, none⟩
  else
    match msg with
    | .other => pure ⟨m.UpdateRows, .nil, none⟩
    | .KeyMsg key =>
      if key = str "q" ∨ key = str "ctrl+c" then
        pure ⟨m, .Quit, none⟩
      else if key = str "up" ∨ key = str "k" then
        let m := if m.cursor > 0 then { m with cursor := m.cursor - 1 } else m
        pure ⟨m.UpdateRows, .nil, none⟩
      else if key = str "down" ∨ key = str "j" then
        let m := if m.cursor < (m.GetRows.length : Int) - 1 then { m with cursor := m.cursor + 1 } else m
        pure ⟨m.UpdateRows, .nil, none⟩
      else if key = str "r" then
        pure ⟨(m.Refresh env).UpdateRows, .nil, none⟩
      else if key = str "x" then
        pure ⟨m.ToggleView.UpdateRows, .nil, none⟩
      else if key = str "/" then
        pure ⟨{ m with searchStarted := true }.UpdateRows, .nil, none⟩
      else if key = str "enter" then do
        let r ← m.SelectRow
        pure ⟨m.UpdateRows, r.1, r.2⟩
      else
        pure ⟨m.UpdateRows, .nil, none⟩

/-- The model after handling a sequence of messages, one `Update` at a time. -/
def model.run (env : Env) (m : model) : List Msg → Except Panic model
  | [] => .ok m
  | msg :: rest =>
    match m.Update env msg with
    | .ok o => o.m.run env rest
    | .error e => .error e

/-- The model `main` hands to the program: both views empty, the column
schemas set, cursor and window at zero, then one `Refresh`. -/
def mainModel (env : Env) : model :=
  let m : model :=
    { view := ⟨⟨.Vaults, [], []⟩, ⟨.Vaults, [], []⟩⟩
      currentView := .Vaults
      searchStarted := false
      searchString := str ""
      cursor := 0
      height := 0
      start := 0
      end_ := 0 }
  let m := m.SetCols [⟨str "Name", 20⟩, ⟨str "Region", 20⟩, ⟨str "Resource Group", 20⟩] .Vaults
  let m := m.SetCols [⟨str "Vault", 20⟩, ⟨str "Name", 20⟩] .Secrets
  let m := { m with start := 0, cursor := 0, end_ := 0 }
  m.Refresh env

/-! ## Auxiliary definitions for the proofs

The values `UpdateRows` writes back, as functions of the dataset length `n` and
the prior cursor `c` and window start `s`. -/

def winCursor (n c : Int) : Int := if c > n then n else c

def winHeight (n : Int) : Int := if n ≤ 10 then n else 10

def winStart (n c s : Int) : Int :=
  let height : Int := winHeight n
  let start : Int := if s > n then n else s
  let end_ : Int := start + height
  let cursor : Int := winCursor n c
  let start : Int := if cursor = 0 then 0 else start
  let start : Int := if cursor = start - 1 ∧ cursor > 0 then start - 1 else start
  if cursor = end_ then start + 1 else start

def winEnd (n c s : Int) : Int :=
  if winStart n c s + winHeight n > n then n else winStart n c s + winHeight n

/-- The key messages that move the cursor in Idle mode. -/
def isMove (msg : Msg) : Prop :=
  msg = .KeyMsg (str "up") ∨ msg = .KeyMsg (str "k") ∨
  msg = .KeyMsg (str "down") ∨ msg = .KeyMsg (str "j")

/-- The cursor after a move key in Idle mode, before `UpdateRows`. -/
def moved (n c : Int) (msg : Msg) : Int :=
  if msg = .KeyMsg (str "up") ∨ msg = .KeyMsg (str "k") then (if c > 0 then c - 1 else c)
  else (if c < n - 1 then c + 1 else c)

/-- Inductive invariant of cursor and window start under move keys. -/
def winJ (n c s : Int) : Prop :=
  0 ≤ s ∧ 0 ≤ c ∧ (1 ≤ n → s ≤ c ∧ c ≤ n - 1 ∧ c < s + winHeight n ∧ s + winHeight n ≤ n) ∧
    (n ≤ 0 → c = 0 ∧ s ≤ 1)

/-- The window relations that hold after each `Update` with a move key. -/
def winGood (n c s e h : Int) : Prop :=
  0 ≤ s ∧ 0 ≤ c ∧ c ≤ e ∧ e ≤ n ∧ e - s ≤ h ∧ h = min n 10 ∧ (1 ≤ n → s ≤ c)

def modelJ (m0 m : model) : Prop :=
  m.searchStarted = false ∧ m.GetRows = m0.GetRows ∧ winJ m0.GetRows.length m.cursor m.start

def modelGood (m0 m : model) : Prop :=
  winGood m0.GetRows.length m.cursor m.start m.end_ m.height

/-- An environment whose backend lists `n` vaults and no secret. -/
def vaultsEnv (n : Nat) : Env :=
  ⟨List.replicate n ⟨str "sub", str "rg", str "id", str "url", str "vault", str "region"⟩, [],
    fun _ _ => 0⟩

/-- An environment with three vaults and one enabled secret. -/
def smallEnv : Env :=
  { vaultsEnv 3 with
    secrets := [⟨str "vault", str "url", str "name", str "1", str "ident", true, str ""⟩] }

/-- A model over one view with the given rows, cursor and window start. -/
def windowModel (rows : Rows) (cursor start : Int) : model :=
  { view := ⟨⟨.Vaults, rows, []⟩, ⟨.Vaults, [], []⟩⟩
    currentView := .Vaults
    searchStarted := false
    searchString := str ""
    cursor := cursor
    height := 0
    start := start
    end_ := 0 }

/-- The five single-field rows of the filter example. -/
def fruitRows : Rows :=
  [[str "apple"], [str "banana"], [str "grape"], [str "pineapple"], [str "kiwi"]]

/-- The model reached from `mainModel smallEnv` by the keys `x`, `/`, `n`: the
Secrets view in search mode with the query `n`. -/
def composingModel : model :=
  { mainModel smallEnv with
    currentView := .Secrets
    searchStarted := true
    searchString := str "n"
    height := 1
    end_ := 1 }

/-- A cache holding the one secret of `smallEnv` under its identifier. -/
def smallCache : SecretMap := fun k =>
  if k = str "ident" then
    some ⟨str "vault", str "url", str "name", str "1", str "ident", true, str ""⟩
  else none

/-- A backend whose client construction succeeds and whose fetch returns `value`. -/
def okBackend (value : GoString) : Backend := ⟨fun _ => true, fun _ _ _ => some value⟩

/-- A backend whose client construction succeeds and whose fetch fails. -/
def failingBackend : Backend := ⟨fun _ => true, fun _ _ _ => none⟩

/-! ## Window arithmetic -/

theorem UpdateRows_eq (m : model) :
    m.UpdateRows = { m with
      cursor := winCursor m.GetRows.length m.cursor
      height := winHeight m.GetRows.length
      start := winStart m.GetRows.length m.cursor m.start
      end_ := winEnd m.GetRows.length m.cursor m.start } := rfl

theorem UpdateRows_GetRows (m : model) : m.UpdateRows.GetRows = m.GetRows := rfl

theorem winHeight_eq (n : Int) : winHeight n = min n 10 := by
  unfold winHeight
  split_ifs <;> omega

theorem winFacts (n c s : Int) (hn : 1 ≤ n) (hs : 0 ≤ s) :
    winCursor n c ≤ n ∧ 0 ≤ winStart n c s ∧ winStart n c s ≤ n ∧
    (winCursor n c = 0 → winStart n c s = 0) ∧
    ¬ (winCursor n c = winStart n c s - 1 ∧ winCursor n c > 0) ∧
    winCursor n c ≠ winStart n c s + winHeight n := by
  simp only [winCursor, winStart, winHeight]
  split_ifs <;> omega

theorem winStart_fix (n c s : Int) (h1 : c ≤ n) (h2 : s ≤ n) (h3 : c = 0 → s = 0)
    (h4 : ¬ (c = s - 1 ∧ c > 0)) (h5 : c ≠ s + winHeight n) : winStart n c s = s := by
  simp only [winCursor, winStart, winHeight] at *
  split_ifs at * <;> omega

theorem winCursor_idem (n c : Int) : winCursor n (winCursor n c) = winCursor n c := by
  simp only [winCursor]
  split_ifs <;> omega

theorem winFacts_zero (n c s : Int) (hn : n = 0) (hs : 0 ≤ s) :
    winCursor n c ≤ 0 ∧ (winCursor n c = 0 → winStart n c s = 1) ∧
    (winCursor n c < 0 → winStart n c s = 0) := by
  simp only [winCursor, winStart, winHeight]
  split_ifs <;> omega

theorem winStart_fix_zero (n c s : Int) (hn : n = 0) (h1 : c ≤ 0) (h2 : c = 0 → s = 1)
    (h3 : c < 0 → s = 0) : winStart n c s = s := by
  simp only [winCursor, winStart, winHeight]
  split_ifs <;> omega

theorem winStart_idem (n c s : Int) (hn : 0 ≤ n) (hs : 0 ≤ s) :
    winStart n (winCursor n c) (winStart n c s) = winStart n c s := by
  rcases Int.lt_or_le 0 n with h | h
  · obtain ⟨a1, _, a3, a4, a5, a6⟩ := winFacts n c s (by omega) hs
    exact winStart_fix n _ _ a1 a3 a4 a5 a6
  · have h0 : n = 0 := by omega
    obtain ⟨a1, a2, a3⟩ := winFacts_zero n c s h0 hs
    exact winStart_fix_zero n _ _ h0 a1 a2 a3

theorem winBounds (n c s : Int) (hn : 1 ≤ n) (hc : 0 ≤ c) (hs : 0 ≤ s) :
    0 ≤ winStart n c s ∧ winStart n c s ≤ winEnd n c s ∧ winEnd n c s ≤ n := by
  simp only [winCursor, winStart, winEnd, winHeight]
  split_ifs <;> omega

/-! ## The window after `UpdateRows` -/

/-- C8: the window recomputation is idempotent: for every model state (cursor,
start, end, height) with a window start that is not negative, as it is in
every state the program reaches (`reachable_start_nonneg`), and every active
dataset, applying `UpdateRows` twice gives the same model as applying it
once. -/
theorem UpdateRows_idempotent (m : model) (hs : 0 ≤ m.start) :
    m.UpdateRows.UpdateRows = m.UpdateRows := by
  rw [UpdateRows_eq m.UpdateRows, UpdateRows_GetRows, UpdateRows_eq m]
  simp only [winEnd, winCursor_idem, winStart_idem _ _ _ (Int.ofNat_nonneg _) hs]

/-- C8, witness: a one-row dataset with cursor 5 and start 3. -/
theorem UpdateRows_idempotent_witness :
    0 ≤ (windowModel [[str "a"]] 5 3).start ∧
    (windowModel [[str "a"]] 5 3).UpdateRows.UpdateRows = (windowModel [[str "a"]] 5 3).UpdateRows :=
  ⟨by decide, UpdateRows_idempotent _ (by decide)⟩

/-- C10: for every active dataset of length N and every prior state with
non-negative cursor and start, after `UpdateRows` either N = 0, and
`GetRowsRange` returns the empty list, or 0 <= start <= end <= N; in both cases
`GetRowsRange` returns without a fault. -/
theorem GetRowsRange_in_bounds (m : model) (hc : 0 ≤ m.cursor) (hs : 0 ≤ m.start) :
    ((m.GetRows.length = 0 ∧ m.UpdateRows.GetRowsRange = .ok []) ∨
      (0 ≤ m.UpdateRows.start ∧ m.UpdateRows.start ≤ m.UpdateRows.end_ ∧
        m.UpdateRows.end_ ≤ m.GetRows.length)) ∧
    ∃ rows, m.UpdateRows.GetRowsRange = .ok rows := by
  by_cases h0 : m.GetRows.length = 0
  · have hr : m.UpdateRows.GetRowsRange = .ok [] := by
      unfold model.GetRowsRange
      rw [UpdateRows_GetRows, if_pos h0]
    exact ⟨Or.inl ⟨h0, hr⟩, [], hr⟩
  · have h1 : (1 : Int) ≤ m.GetRows.length := by omega
    have hb : 0 ≤ m.UpdateRows.start ∧ m.UpdateRows.start ≤ m.UpdateRows.end_ ∧
        m.UpdateRows.end_ ≤ m.GetRows.length :=
      winBounds m.GetRows.length m.cursor m.start h1 hc hs
    have hr : m.UpdateRows.GetRowsRange =
        .ok ((m.GetRows.drop m.UpdateRows.start.toNat).take
          (m.UpdateRows.end_.toNat - m.UpdateRows.start.toNat)) := by
      unfold model.GetRowsRange
      rw [UpdateRows_GetRows, if_neg h0, if_pos hb]
    exact ⟨Or.inr hb, _, hr⟩

/-- C10, witness: a two-row dataset with the cursor (7) and the start (5) both
past the end before the call. -/
theorem GetRowsRange_in_bounds_witness :
    0 ≤ (windowModel [[str "a"], [str "b"]] 7 5).cursor ∧
    0 ≤ (windowModel [[str "a"], [str "b"]] 7 5).start ∧
    (((windowModel [[str "a"], [str "b"]] 7 5).GetRows.length = 0 ∧
        (windowModel [[str "a"], [str "b"]] 7 5).UpdateRows.GetRowsRange = .ok []) ∨
      (0 ≤ (windowModel [[str "a"], [str "b"]] 7 5).UpdateRows.start ∧
        (windowModel [[str "a"], [str "b"]] 7 5).UpdateRows.start ≤
          (windowModel [[str "a"], [str "b"]] 7 5).UpdateRows.end_ ∧
        (windowModel [[str "a"], [str "b"]] 7 5).UpdateRows.end_ ≤
          (windowModel [[str "a"], [str "b"]] 7 5).GetRows.length)) ∧
    ∃ rows, (windowModel [[str "a"], [str "b"]] 7 5).UpdateRows.GetRowsRange = .ok rows :=
  ⟨by decide, by decide, GetRowsRange_in_bounds _ (by decide) (by decide)⟩

/-- C2, the code at the failing input: on a one-row dataset a cursor of 5 is
clamped to 1, not to 0, and `GetSelectedRow` then indexes past the end; the
same happens through `Update` with the keys down, down, x, enter when the
Vaults view has three rows and the Secrets view one. -/
theorem UpdateRows_cursor_past_end :
    (windowModel [[str "a"]] 5 0).GetRows.length = 1 ∧
    (windowModel [[str "a"]] 5 0).UpdateRows.cursor = 1 ∧
    (windowModel [[str "a"]] 5 0).UpdateRows.GetSelectedRow = .error .indexOutOfRange ∧
    (mainModel smallEnv).run smallEnv
      [.KeyMsg (str "down"), .KeyMsg (str "down"), .KeyMsg (str "x"), .KeyMsg (str "enter")] =
      .error .indexOutOfRange := by
  refine ⟨by decide, by decide, rfl, rfl⟩

/-! ## Cursor moves through `Update` -/

theorem Update_move (env : Env) (m : model) (msg : Msg) (hs : m.searchStarted = false)
    (hk : isMove msg) :
    m.Update env msg =
      .ok ⟨{ m with cursor := moved m.GetRows.length m.cursor msg }.UpdateRows, .nil, none⟩ := by
  have e1 : str "up" ≠ str "q" ∧ str "up" ≠ str "ctrl+c" := by decide
  have e2 : str "k" ≠ str "q" ∧ str "k" ≠ str "ctrl+c" := by decide
  have e3 : str "down" ≠ str "q" ∧ str "down" ≠ str "ctrl+c" ∧ str "down" ≠ str "up" ∧
      str "down" ≠ str "k" := by decide
  have e4 : str "j" ≠ str "q" ∧ str "j" ≠ str "ctrl+c" ∧ str "j" ≠ str "up" ∧
      str "j" ≠ str "k" := by decide
  obtain ⟨vw, cv, ss, q, c, h, s, e⟩ := m
  simp only at hs
  subst hs
  rcases hk with h | h | h | h <;> subst h
  · simp [model.Update, moved, e1]
    split_ifs <;> rfl
  · simp [model.Update, moved, e2]
    split_ifs <;> rfl
  · simp [model.Update, moved, e3]
    split_ifs <;> rfl
  · simp [model.Update, moved, e4]
    split_ifs <;> rfl

theorem moved_cases (n c : Int) (msg : Msg) :
    moved n c msg = c ∨ (moved n c msg = c - 1 ∧ c > 0) ∨ (moved n c msg = c + 1 ∧ c < n - 1) := by
  unfold moved
  split_ifs <;> omega

theorem winJ_step (n c s c1 : Int) (hn : 0 ≤ n) (hj : winJ n c s)
    (hc : c1 = c ∨ (c1 = c - 1 ∧ c > 0) ∨ (c1 = c + 1 ∧ c < n - 1)) :
    winJ n (winCursor n c1) (winStart n c1 s) ∧
    winGood n (winCursor n c1) (winStart n c1 s) (winEnd n c1 s) (winHeight n) := by
  unfold winJ winGood at *
  simp only [winCursor, winStart, winEnd]
  have hh := winHeight_eq n
  generalize winHeight n = h at *
  split_ifs <;> omega

theorem Update_move_inv (env : Env) (m0 m : model) (msg : Msg) (hj : modelJ m0 m)
    (hk : isMove msg) :
    ∃ o, m.Update env msg = .ok o ∧ modelJ m0 o.m ∧ modelGood m0 o.m := by
  obtain ⟨h1, h2, h3⟩ := hj
  refine ⟨_, Update_move env m msg h1 hk, ?_⟩
  rw [UpdateRows_eq]
  have hr : ∀ c : Int, ({ m with cursor := c } : model).GetRows = m0.GetRows := fun _ => h2
  have hl : m.GetRows.length = m0.GetRows.length := by rw [h2]
  have := winJ_step m0.GetRows.length m.cursor m.start (moved m0.GetRows.length m.cursor msg)
    (Int.ofNat_nonneg _) h3 (moved_cases _ _ _)
  refine ⟨⟨h1, h2, ?_⟩, ?_⟩
  · simp only [hr, hl]; exact this.1
  · unfold modelGood; simp only [hr, hl]; exact this.2

theorem run_moves (env : Env) (m0 : model) (msgs : List Msg) :
    ∀ m : model, modelJ m0 m → (∀ msg ∈ msgs, isMove msg) →
      ∃ m1, m.run env msgs = .ok m1 ∧ modelJ m0 m1 ∧ (msgs ≠ [] → modelGood m0 m1) := by
  induction msgs with
  | nil => intro m hj _; exact ⟨m, rfl, hj, fun h => absurd rfl h⟩
  | cons msg rest ih =>
    intro m hj hk
    obtain ⟨o, ho, hjo, hgo⟩ := Update_move_inv env m0 m msg hj (hk msg (List.mem_cons_self _ _))
    obtain ⟨m1, hm1, hj1, hg1⟩ := ih o.m hjo (fun x hx => hk x (List.mem_cons_of_mem _ hx))
    refine ⟨m1, ?_, hj1, fun _ => ?_⟩
    · simp only [model.run, ho]; exact hm1
    · by_cases hr : rest = []
      · subst hr
        simp only [model.run] at hm1
        cases hm1
        exact hgo
      · exact hg1 hr

/-- C1 (amended): for every dataset length N >= 0 and every non-empty sequence
of up/down key messages (`up`, `k`, `down`, `j`) handled by `Update` from a model
in Idle mode with cursor 0 and start 0, every `Update` returns, the dataset is
unchanged, and the final state has 0 <= start, 0 <= cursor <= end <= N,
end - start <= height and height = min(N, 10); start <= cursor holds whenever
N >= 1. -/
theorem window_invariant_under_moves (env : Env) (m : model) (msgs : List Msg)
    (hs : m.searchStarted = false) (hc : m.cursor = 0) (hst : m.start = 0)
    (hk : ∀ msg ∈ msgs, isMove msg) (hne : msgs ≠ []) :
    ∃ m1, m.run env msgs = .ok m1 ∧ m1.GetRows = m.GetRows ∧
      0 ≤ m1.start ∧ 0 ≤ m1.cursor ∧ m1.cursor ≤ m1.end_ ∧ m1.end_ ≤ m.GetRows.length ∧
      m1.end_ - m1.start ≤ m1.height ∧ m1.height = min (m.GetRows.length : Int) 10 ∧
      (1 ≤ m.GetRows.length → m1.start ≤ m1.cursor) := by
  have hj : modelJ m m := by
    refine ⟨hs, rfl, ?_⟩
    unfold winJ
    rw [hc, hst, winHeight_eq]
    omega
  obtain ⟨m1, h1, h2, h3⟩ := run_moves env m msgs m hj hk
  obtain ⟨a1, a2, a3, a4, a5, a6, a7⟩ := h3 hne
  exact ⟨m1, h1, h2.2.1, a1, a2, a3, a4, a5, a6, fun h => a7 (by omega)⟩

/-- C1, counterexample: with no rows (N = 0) one `down` key leaves cursor 0,
start 1 and end 0, so start <= cursor fails. -/
theorem window_invariant_fails_on_empty_dataset :
    (mainModel (vaultsEnv 0)).GetRows.length = 0 ∧
    ∃ m1, (mainModel (vaultsEnv 0)).run (vaultsEnv 0) [.KeyMsg (str "down")] = .ok m1 ∧
      m1.cursor = 0 ∧ m1.start = 1 ∧ m1.end_ = 0 ∧ ¬ (m1.start ≤ m1.cursor) :=
  ⟨by decide, _, rfl, by decide, by decide, by decide, by decide⟩

theorem down_step (n c s : Int) (hn : 10 < n) (h0 : 0 ≤ c) (h1 : c ≤ n - 1)
    (hs : s = max 0 (c - 9)) (c1 : Int) (hc : c1 = if c < n - 1 then c + 1 else c) :
    winCursor n c1 = c1 ∧ winStart n c1 s = max 0 (c1 - 9) ∧ winEnd n c1 s = max 0 (c1 - 9) + 10 ∧
      c1 = min (c + 1) (n - 1) := by
  have hc1 : (c < n - 1 ∧ c1 = c + 1) ∨ (¬ c < n - 1 ∧ c1 = c) := by
    rw [hc]; split_ifs <;> omega
  clear hc
  have hh : winHeight n = 10 := by rw [winHeight_eq]; omega
  have hs1 : (c ≤ 9 ∧ s = 0) ∨ (9 < c ∧ s = c - 9) := by omega
  clear hs
  have e1 : winCursor n c1 = c1 := by
    unfold winCursor; split_ifs <;> omega
  have e2 : winStart n c1 s = max 0 (c1 - 9) := by
    simp only [winStart, e1, hh]
    split_ifs <;> omega
  refine ⟨e1, e2, ?_, by omega⟩
  simp only [winEnd, e2, hh]
  split_ifs <;> omega

theorem moved_down (n c : Int) :
    moved n c (.KeyMsg (str "down")) = if c < n - 1 then c + 1 else c := by
  have e : str "down" ≠ str "up" ∧ str "down" ≠ str "k" := by decide
  simp [moved, e]

theorem run_downs (env : Env) (k : Nat) :
    ∀ m : model, m.searchStarted = false → 10 < m.GetRows.length → 0 ≤ m.cursor →
      m.cursor ≤ (m.GetRows.length : Int) - 1 → m.start = max 0 (m.cursor - 9) →
      ∃ m1, m.run env (List.replicate k (.KeyMsg (str "down"))) = .ok m1 ∧
        m1.cursor = min (m.cursor + k) ((m.GetRows.length : Int) - 1) ∧
        m1.start = max 0 (m1.cursor - 9) ∧ (1 ≤ k → m1.end_ = m1.start + 10) := by
  induction k with
  | zero =>
    intro m _ _ h0 h1 hs
    exact ⟨m, rfl, by simp; omega, hs, fun h => absurd h (by decide)⟩
  | succ k ih =>
    intro m hss hn h0 h1 hs
    have hu := Update_move env m (.KeyMsg (str "down")) hss (Or.inr (Or.inr (Or.inl rfl)))
    rw [UpdateRows_eq] at hu
    have hr : ∀ c : Int, ({ m with cursor := c } : model).GetRows = m.GetRows := fun _ => rfl
    simp only [hr] at hu
    obtain ⟨b1, b2, b3, b4⟩ := down_step m.GetRows.length m.cursor m.start (by omega) h0 h1 hs
      (moved m.GetRows.length m.cursor (.KeyMsg (str "down"))) (moved_down _ _)
    generalize moved (↑m.GetRows.length) m.cursor (.KeyMsg (str "down")) = c1 at *
    rw [b1, b2, b3] at hu
    obtain ⟨m2, hu2, q1, q2, q3, q4, q5⟩ : ∃ m2 : model,
        m.Update env (.KeyMsg (str "down")) = .ok ⟨m2, .nil, none⟩ ∧ m2.searchStarted = false ∧
        m2.GetRows = m.GetRows ∧ m2.cursor = c1 ∧ m2.start = max 0 (c1 - 9) ∧
        m2.end_ = max 0 (c1 - 9) + 10 := ⟨_, hu, hss, rfl, rfl, rfl, rfl⟩
    obtain ⟨m1, r1, r2, r3, r4⟩ := ih m2 q1 (by rw [q2]; exact hn) (by rw [q3]; omega)
      (by rw [q2, q3]; omega) (by rw [q3, q4])
    rw [q2, q3] at r2
    refine ⟨m1, ?_, ?_, r3, fun _ => ?_⟩
    · simp only [List.replicate_succ, model.run, hu2]; exact r1
    · rw [r2]
      push_cast
      omega
    · by_cases hk : 1 ≤ k
      · exact r4 hk
      · have : k = 0 := by omega
        subst this
        simp only [List.replicate_zero, model.run] at r1
        cases r1
        rw [q4, q5]

/-- C7: for every dataset of length N > 10, from a model in Idle mode with
cursor 0 and start 0, N + 5 consecutive `down` key messages handled by `Update`
all return and leave cursor = N - 1 and end = N. -/
theorem downs_reach_last_row (env : Env) (m : model) (hs : m.searchStarted = false)
    (hc : m.cursor = 0) (hst : m.start = 0) (hn : 10 < m.GetRows.length) :
    ∃ m1, m.run env (List.replicate (m.GetRows.length + 5) (.KeyMsg (str "down"))) = .ok m1 ∧
      m1.cursor = (m.GetRows.length : Int) - 1 ∧ m1.end_ = (m.GetRows.length : Int) := by
  obtain ⟨m1, r1, r2, r3, r4⟩ := run_downs env (m.GetRows.length + 5) m hs hn (by omega) (by omega)
    (by rw [hc, hst]; omega)
  refine ⟨m1, r1, ?_, ?_⟩
  · rw [r2, hc]; push_cast; omega
  · rw [r4 (by omega), r3, r2, hc]; push_cast; omega

/-- C7, witness: the model `main` builds over eleven vaults. -/
theorem downs_reach_last_row_witness :
    (mainModel (vaultsEnv 11)).searchStarted = false ∧ (mainModel (vaultsEnv 11)).cursor = 0 ∧
    (mainModel (vaultsEnv 11)).start = 0 ∧ 10 < (mainModel (vaultsEnv 11)).GetRows.length ∧
    ∃ m1, (mainModel (vaultsEnv 11)).run (vaultsEnv 11)
        (List.replicate ((mainModel (vaultsEnv 11)).GetRows.length + 5) (.KeyMsg (str "down"))) =
        .ok m1 ∧
      m1.cursor = ((mainModel (vaultsEnv 11)).GetRows.length : Int) - 1 ∧
      m1.end_ = ((mainModel (vaultsEnv 11)).GetRows.length : Int) :=
  ⟨by decide, by decide, by decide, by decide,
    downs_reach_last_row (vaultsEnv 11) (mainModel (vaultsEnv 11)) (by decide) (by decide)
      (by decide) (by decide)⟩

/-- C1, witness: the keys down, up on the model `main` builds over three vaults. -/
theorem window_invariant_under_moves_witness :
    (mainModel (vaultsEnv 3)).searchStarted = false ∧ (mainModel (vaultsEnv 3)).cursor = 0 ∧
    (mainModel (vaultsEnv 3)).start = 0 ∧
    ∃ m1, (mainModel (vaultsEnv 3)).run (vaultsEnv 3) [.KeyMsg (str "down"), .KeyMsg (str "up")] =
        .ok m1 ∧ m1.GetRows = (mainModel (vaultsEnv 3)).GetRows ∧
      0 ≤ m1.start ∧ 0 ≤ m1.cursor ∧ m1.cursor ≤ m1.end_ ∧
      m1.end_ ≤ (mainModel (vaultsEnv 3)).GetRows.length ∧
      m1.end_ - m1.start ≤ m1.height ∧
      m1.height = min ((mainModel (vaultsEnv 3)).GetRows.length : Int) 10 ∧
      (1 ≤ (mainModel (vaultsEnv 3)).GetRows.length → m1.start ≤ m1.cursor) :=
  ⟨by decide, by decide, by decide,
    window_invariant_under_moves (vaultsEnv 3) (mainModel (vaultsEnv 3)) _ (by decide) (by decide)
      (by decide) (by
        intro msg hmsg
        simp only [List.mem_cons, List.mem_singleton, List.mem_nil_iff, or_false] at hmsg
        rcases hmsg with h | h
        · exact Or.inr (Or.inr (Or.inl h))
        · exact Or.inl h) (by simp)⟩

/-! ## Filtering -/

theorem Rows_String_eq (r : Rows) (i : Nat) (s : GoString) :
    r.String i = .ok s ↔ (r.map fun row => List.intercalate (str " ") row)[i]? = some s := by
  unfold Rows.String
  rw [List.getElem?_map]
  cases r[i]? <;> simp

theorem mapM_ok {α β : Type} (f : α → Except Panic β) (g : α → β) :
    ∀ l : List α, (∀ a ∈ l, f a = .ok (g a)) → l.mapM f = .ok (l.map g) := by
  intro l
  induction l with
  | nil => intro _; rfl
  | cons a l ih =>
    intro h
    rw [List.mapM_cons, h a (List.mem_cons_self _ _), ih (fun b hb => h b (List.mem_cons_of_mem _ hb))]
    rfl

theorem mem_FindFrom (score : GoString → GoString → Int) (pattern : GoString)
    (data : List GoString) (mt : Match) :
    mt ∈ FindFrom score pattern data ↔
      pattern ≠ [] ∧ data[mt.Index]? = some mt.Str ∧ isSubsequence pattern mt.Str = true ∧
        mt.Score = score pattern mt.Str := by
  unfold FindFrom
  by_cases hp : pattern = []
  · simp [hp]
  · rw [if_neg hp, (List.mergeSort_perm _ _).mem_iff, List.mem_filterMap]
    constructor
    · rintro ⟨⟨i, s⟩, hmem, hf⟩
      rw [List.mk_mem_enum_iff_getElem?] at hmem
      by_cases hsub : isSubsequence pattern s = true
      · simp only [hsub, if_true, Option.some.injEq] at hf
        subst hf
        exact ⟨hp, hmem, hsub, rfl⟩
      · simp only [hsub] at hf
        exact absurd hf (by simp)
    · rintro ⟨_, h1, h2, h3⟩
      refine ⟨(mt.Index, mt.Str), List.mk_mem_enum_iff_getElem?.mpr h1, ?_⟩
      simp only [h2, if_true, ← h3]

theorem GetRows_SetRows (m : model) (rows : Rows) :
    (m.SetRows rows m.currentView).GetRows = rows := by
  unfold model.SetRows model.GetRows
  cases h : m.currentView <;> rfl

theorem FindRows_ok (env : Env) (m : model) (search : GoString) :
    m.FindRows env search =
      .ok (m.SetRows
        ((FindFrom env.score search (m.GetRows.map fun row => List.intercalate (str " ") row)).map
          fun mt => (m.GetRows[mt.Index]?).getD [])
        m.currentView) := by
  unfold model.FindRows
  simp only [bind, Except.bind, pure, Except.pure]
  rw [mapM_ok _ (fun mt : Match => (m.GetRows[mt.Index]?).getD [])]
  intro mt hmt
  obtain ⟨_, h1, _, _⟩ := (mem_FindFrom _ _ _ _).mp hmt
  rw [List.getElem?_map] at h1
  cases hr : m.GetRows[mt.Index]? with
  | none => rw [hr] at h1; exact absurd h1 (by simp)
  | some row => simp only [Option.getD_some]

theorem mem_FindRows (env : Env) (m m1 : model) (search : GoString) (row : Row)
    (h : m.FindRows env search = .ok m1) :
    row ∈ m1.GetRows ↔
      search ≠ [] ∧ row ∈ m.GetRows ∧
        isSubsequence search (List.intercalate (str " ") row) = true := by
  rw [FindRows_ok] at h
  cases h
  rw [GetRows_SetRows, List.mem_map]
  constructor
  · rintro ⟨mt, hmt, hrow⟩
    obtain ⟨hp, h1, h2, _⟩ := (mem_FindFrom _ _ _ _).mp hmt
    rw [List.getElem?_map] at h1
    cases hr : m.GetRows[mt.Index]? with
    | none => rw [hr] at h1; exact absurd h1 (by simp)
    | some r =>
      rw [hr] at h1 hrow
      simp only [Option.map_some', Option.some.injEq, Option.getD_some] at h1 hrow
      subst hrow
      exact ⟨hp, List.mem_iff_getElem?.mpr ⟨_, hr⟩, by rw [h1]; exact h2⟩
  · rintro ⟨hp, hmem, hsub⟩
    obtain ⟨i, hi⟩ := List.mem_iff_getElem?.mp hmem
    refine ⟨⟨List.intercalate (str " ") row, i, env.score search (List.intercalate (str " ") row)⟩,
      (mem_FindFrom _ _ _ _).mpr ⟨hp, ?_, hsub, rfl⟩, ?_⟩
    · rw [List.getElem?_map, hi]; rfl
    · simp only [hi, Option.getD_some]

/-! ## The window start is never negative

`main` sets the start to 0 and every `Update` keeps a non-negative start
non-negative, whatever the message. -/

theorem winStart_nonneg (n c s : Int) (hn : 0 ≤ n) (hs : 0 ≤ s) : 0 ≤ winStart n c s := by
  simp only [winStart, winCursor, winHeight]
  split_ifs <;> omega

theorem UpdateRows_start_nonneg (m : model) (hs : 0 ≤ m.start) : 0 ≤ m.UpdateRows.start :=
  winStart_nonneg _ _ _ (Int.ofNat_nonneg _) hs

theorem UpdateRows_start_of_eq (m x : model) (hx : x.start = m.start) (hs : 0 ≤ m.start) :
    0 ≤ x.UpdateRows.start :=
  UpdateRows_start_nonneg x (by rw [hx]; exact hs)

theorem FindRows_start (env : Env) (m m1 : model) (search : GoString)
    (h : m.FindRows env search = .ok m1) : m1.start = m.start := by
  rw [FindRows_ok] at h
  cases h
  rfl

theorem searchKeys_start (env : Env) (m m1 : model) (msg : Msg)
    (h : m.searchKeys env msg = .ok m1) : m1.start = m.start := by
  unfold model.searchKeys at h
  cases msg with
  | other => cases h; rfl
  | KeyMsg key =>
    simp only at h
    split_ifs at h
    · cases h; rfl
    · cases hf : m.FindRows env m.searchString with
      | error e => rw [hf] at h; cases h
      | ok m2 =>
        rw [hf] at h
        cases h
        exact FindRows_start env m m2 _ hf
    · cases hf : sliceTo m.searchString ((m.searchString.length : Int) - 1) with
      | error e => rw [hf] at h; cases h
      | ok s => rw [hf] at h; cases h; rfl
    · cases h; rfl

theorem Update_start_nonneg_search (env : Env) (m : model) (msg : Msg) (o : Outcome)
    (h : m.Update env msg = .ok o) (hs : 0 ≤ m.start) (hss : m.searchStarted = true) :
    0 ≤ o.m.start := by
  unfold model.Update at h
  cases hm : m.searchKeys env msg with
  | error e =>
    simp only [hss, if_true, hm, bind, Except.bind] at h
    cases h
  | ok m1 =>
    have hs1 : 0 ≤ m1.start := by rw [searchKeys_start env m m1 msg hm]; exact hs
    simp only [hss, if_true, hm, bind, Except.bind] at h
    cases msg with
    | other =>
      simp only [pure, Except.pure] at h
      split_ifs at h <;> cases h <;> exact UpdateRows_start_nonneg _ hs1
    | KeyMsg key =>
      cases hsel : m1.SelectRow with
      | error e =>
        simp only [hsel, pure, Except.pure] at h
        split_ifs at h <;> cases h <;>
          first
          | exact hs1
          | exact UpdateRows_start_nonneg _ hs1
          | exact UpdateRows_start_nonneg _ (by unfold model.ToggleView; split_ifs <;> exact hs1)
      | ok r =>
        simp only [hsel, pure, Except.pure] at h
        split_ifs at h <;> cases h <;>
          first
          | exact hs1
          | exact UpdateRows_start_nonneg _ hs1
          | exact UpdateRows_start_nonneg _ (by unfold model.ToggleView; split_ifs <;> exact hs1)

theorem Update_start_nonneg_idle (env : Env) (m : model) (msg : Msg) (o : Outcome)
    (h : m.Update env msg = .ok o) (hs : 0 ≤ m.start) (hss : ¬ m.searchStarted = true) :
    0 ≤ o.m.start := by
  unfold model.Update at h
  have hs1 : 0 ≤ m.start := hs
  rw [if_neg hss] at h
  simp only [bind, Except.bind, pure, Except.pure] at h
  rw [if_neg hss] at h
  cases msg with
  | other =>
    cases h
    exact UpdateRows_start_nonneg _ hs1
  | KeyMsg key =>
    cases hsel : m.SelectRow with
    | error e =>
      rw [hsel] at h
      simp only at h
      split_ifs at h <;> cases h <;>
        first
        | exact hs1
        | exact UpdateRows_start_nonneg _ hs1
        | exact UpdateRows_start_nonneg _ (by unfold model.ToggleView; split_ifs <;> exact hs1)
    | ok r =>
      rw [hsel] at h
      simp only at h
      split_ifs at h <;> cases h <;>
        first
        | exact hs1
        | exact UpdateRows_start_nonneg _ hs1
        | exact UpdateRows_start_nonneg _ (by unfold model.ToggleView; split_ifs <;> exact hs1)

theorem Update_start_nonneg (env : Env) (m : model) (msg : Msg) (o : Outcome)
    (h : m.Update env msg = .ok o) (hs : 0 ≤ m.start) : 0 ≤ o.m.start := by
  by_cases hss : m.searchStarted = true
  · exact Update_start_nonneg_search env m msg o h hs hss
  · exact Update_start_nonneg_idle env m msg o h hs hss

theorem run_start_nonneg (env : Env) (msgs : List Msg) :
    ∀ m m1 : model, m.run env msgs = .ok m1 → 0 ≤ m.start → 0 ≤ m1.start := by
  induction msgs with
  | nil => intro m m1 h hs; cases h; exact hs
  | cons msg rest ih =>
    intro m m1 h hs
    unfold model.run at h
    cases hu : m.Update env msg with
    | error e => rw [hu] at h; cases h
    | ok o =>
      rw [hu] at h
      exact ih o.m m1 h (Update_start_nonneg env m msg o hu hs)

theorem reachable_start_nonneg (env : Env) (msgs : List Msg) (m : model)
    (h : (mainModel env).run env msgs = .ok m) : 0 ≤ m.start :=
  run_start_nonneg env msgs (mainModel env) m h (le_refl (0 : Int))

theorem UpdateRows_idempotent_on_reachable (env : Env) (msgs : List Msg) (m : model)
    (h : (mainModel env).run env msgs = .ok m) : m.UpdateRows.UpdateRows = m.UpdateRows := by
  have hs := reachable_start_nonneg env msgs m h
  rw [UpdateRows_eq m.UpdateRows, UpdateRows_GetRows, UpdateRows_eq m]
  simp only [winEnd, winCursor_idem, winStart_idem _ _ _ (Int.ofNat_nonneg _) hs]

/-! ## The filter example and `enter` in search mode -/

/-- C6 (amended): for every scoring function, filtering the five single-field
rows apple, banana, grape, pineapple, kiwi with the query `ap` returns a dataset
that contains the rows apple, pineapple and grape and contains neither banana
nor kiwi. -/
theorem FindRows_fruit (env : Env) :
    ∃ m1, (windowModel fruitRows 0 0).FindRows env (str "ap") = .ok m1 ∧
      [str "apple"] ∈ m1.GetRows ∧ [str "pineapple"] ∈ m1.GetRows ∧ [str "grape"] ∈ m1.GetRows ∧
      [str "banana"] ∉ m1.GetRows ∧ [str "kiwi"] ∉ m1.GetRows := by
  refine ⟨_, FindRows_ok env _ _, ?_, ?_, ?_, ?_, ?_⟩
  · exact (mem_FindRows env _ _ _ _ (FindRows_ok env _ _)).mpr ⟨by decide, by decide, by decide⟩
  · exact (mem_FindRows env _ _ _ _ (FindRows_ok env _ _)).mpr ⟨by decide, by decide, by decide⟩
  · exact (mem_FindRows env _ _ _ _ (FindRows_ok env _ _)).mpr ⟨by decide, by decide, by decide⟩
  · intro h
    have := ((mem_FindRows env _ _ _ _ (FindRows_ok env _ _)).mp h).2.2
    exact absurd this (by decide)
  · intro h
    have := ((mem_FindRows env _ _ _ _ (FindRows_ok env _ _)).mp h).2.2
    exact absurd this (by decide)

/-- C6, counterexample: the filtered dataset contains the row grape (`ap` is a
subsequence of `grape`). -/
theorem FindRows_fruit_keeps_grape :
    ∃ m1, (windowModel fruitRows 0 0).FindRows (vaultsEnv 0) (str "ap") = .ok m1 ∧
      [str "grape"] ∈ m1.GetRows :=
  ⟨_, FindRows_ok _ _ _,
    (mem_FindRows _ _ _ _ _ (FindRows_ok _ _ _)).mpr ⟨by decide, by decide, by decide⟩⟩

theorem FindRows_composing : composingModel.FindRows smallEnv (str "n") = .ok composingModel := by
  rw [FindRows_ok]
  have h : FindFrom smallEnv.score (str "n")
      (composingModel.GetRows.map fun row => List.intercalate (str " ") row) =
      [⟨str "vault name ident", 0, 0⟩] := by
    unfold FindFrom
    rw [if_neg (by decide)]
    exact List.mergeSort_singleton _
  rw [h]
  rfl

/-- C4, the code at the failing input: in the Secrets view in search mode with
query `n`, one `enter` filters the rows, clears the query and leaves search
mode, and the same `Update` goes on to the Idle `enter` case, where `SelectRow`
starts the resolve-and-copy goroutine for the row under the cursor. -/
theorem enter_in_search_also_selects :
    (mainModel smallEnv).run smallEnv [.KeyMsg (str "x"), .KeyMsg (str "/"), .KeyMsg (str "n")] =
      .ok composingModel ∧
    composingModel.Update smallEnv (.KeyMsg (str "enter")) =
      .ok ⟨{ composingModel with searchStarted := false, searchString := str "" }, .nil,
        some [str "vault", str "name", str "ident"]⟩ := by
  refine ⟨rfl, ?_⟩
  have hk : composingModel.searchKeys smallEnv (.KeyMsg (str "enter")) =
      .ok { composingModel with searchString := str "", searchStarted := false } := by
    have e : str "enter" ≠ str "esc" := by decide
    simp only [model.searchKeys, e, if_false, if_true]
    rw [show composingModel.searchString = str "n" from rfl, FindRows_composing]
    rfl
  simp only [model.Update, show composingModel.searchStarted = true from rfl, if_true, hk, bind,
    Except.bind]
  rfl

/-! ## Key handling and secret lookup -/

/-- C3, the code at the failing input: `backspace` on the empty query makes
`Update` fault on the slice `[:len-1]`; on a query ending in a two-byte character
it removes the last byte only. -/
theorem backspace_on_empty_query_panics :
    (mainModel smallEnv).run smallEnv [.KeyMsg (str "/"), .KeyMsg (str "backspace")] =
      .error .sliceBounds ∧
    ∃ m1, (mainModel smallEnv).run smallEnv
        [.KeyMsg (str "/"), .KeyMsg (str "é"), .KeyMsg (str "backspace")] = .ok m1 ∧
      m1.searchStarted = true ∧ m1.searchString = [0xc3] :=
  ⟨rfl, _, rfl, rfl, rfl⟩

/-- C9 (amended): in Idle mode, in either view, the keys `q` and `ctrl+c` make
`Update` return the model unchanged with the command `tea.Quit`; in search
(Composing) mode the key `q` is query input: it is appended to `searchString`
and the command is `nil`. -/
theorem quit_key (env : Env) (m : model) :
    (m.searchStarted = false →
      m.Update env (.KeyMsg (str "q")) = .ok ⟨m, .Quit, none⟩ ∧
      m.Update env (.KeyMsg (str "ctrl+c")) = .ok ⟨m, .Quit, none⟩) ∧
    (m.searchStarted = true →
      m.Update env (.KeyMsg (str "q")) = .ok ⟨(m.ProcessInput (str "q")).UpdateRows, .nil, none⟩) := by
  obtain ⟨vw, cv, ss, q, c, h, s, e⟩ := m
  constructor
  · intro hs
    simp only at hs
    subst hs
    constructor <;> (simp [model.Update]; rfl)
  · intro hs
    simp only at hs
    subst hs
    have e1 : str "q" ≠ str "esc" ∧ str "q" ≠ str "enter" ∧ str "q" ≠ str "backspace" := by decide
    simp [model.Update, model.searchKeys, e1, model.ProcessInput]
    rfl

/-- C9, witness: the amended statement at the model of `main` (Idle) and at the
composing model. -/
theorem quit_key_witness :
    ((mainModel smallEnv).searchStarted = false ∧
      (mainModel smallEnv).Update smallEnv (.KeyMsg (str "q")) =
        .ok ⟨mainModel smallEnv, .Quit, none⟩ ∧
      (mainModel smallEnv).Update smallEnv (.KeyMsg (str "ctrl+c")) =
        .ok ⟨mainModel smallEnv, .Quit, none⟩) ∧
    (composingModel.searchStarted = true ∧
      composingModel.Update smallEnv (.KeyMsg (str "q")) =
        .ok ⟨(composingModel.ProcessInput (str "q")).UpdateRows, .nil, none⟩) :=
  ⟨⟨rfl, (quit_key smallEnv (mainModel smallEnv)).1 rfl⟩,
    ⟨rfl, (quit_key smallEnv composingModel).2 rfl⟩⟩

/-- C9, counterexample: in search mode `q` returns the command `nil`, not
`tea.Quit`, and the query `n` becomes `nq`. -/
theorem quit_key_in_search_does_not_quit :
    composingModel.searchStarted = true ∧
    ∃ o, composingModel.Update smallEnv (.KeyMsg (str "q")) = .ok o ∧ o.cmd = .nil ∧
      o.cmd ≠ .Quit ∧ o.m.searchString = str "nq" :=
  ⟨rfl, _, rfl, rfl, by decide, rfl⟩

/-- The results of `TryGetSecret` in every case, the guard on the client
construction included: found = false exactly when the identifier is not a key
of the cache or the client for the record is not constructed. -/
theorem TryGetSecret_found (b : Backend) (secrets : SecretMap) (version : GoString) :
    ((TryGetSecret b secrets version).found = false ↔
      secrets version = none ∨
        ∃ info, secrets version = some info ∧ b.NewClient info.VaultUrl = false) ∧
    ((TryGetSecret b secrets version).found = false →
      (TryGetSecret b secrets version).calls = [] ∧
      (TryGetSecret b secrets version).secretInfo = none) ∧
    (∀ info, secrets version = some info → b.NewClient info.VaultUrl = true →
      (TryGetSecret b secrets version).found = true ∧
      (∀ value, b.GetSecret info.VaultUrl info.Name info.Version = some value →
        (TryGetSecret b secrets version).secretInfo = some { info with Value := value }) ∧
      (b.GetSecret info.VaultUrl info.Name info.Version = none →
        (TryGetSecret b secrets version).secretInfo = some { info with Value := str "" })) := by
  unfold TryGetSecret
  cases hs : secrets version with
  | none => simp
  | some info =>
    cases hn : b.NewClient info.VaultUrl with
    | false => simp [hn]
    | true =>
      cases hg : b.GetSecret info.VaultUrl info.Name info.Version with
      | none => simp [hn, hg]
      | some v => simp [hn, hg]

/-- C5: for every cache content, identifier and outcome of the fetch, with a
backend whose client for the cached record is constructed, `TryGetSecret`
reports found = false exactly when the identifier is not a key of the cache,
and then makes no fetch and returns no record; for an identifier in the cache
it reports found = true whether or not the fetch succeeds, with `Value` set to
the fetched value on success and to the empty string on failure. -/
theorem TryGetSecret_found_iff_cached (b : Backend) (secrets : SecretMap) (version : GoString)
    (hc : ∀ info, secrets version = some info → b.NewClient info.VaultUrl = true) :
    ((TryGetSecret b secrets version).found = false ↔ secrets version = none) ∧
    (secrets version = none →
      (TryGetSecret b secrets version).calls = [] ∧
      (TryGetSecret b secrets version).secretInfo = none) ∧
    (∀ info, secrets version = some info →
      (TryGetSecret b secrets version).found = true ∧
      (∀ value, b.GetSecret info.VaultUrl info.Name info.Version = some value →
        (TryGetSecret b secrets version).secretInfo = some { info with Value := value }) ∧
      (b.GetSecret info.VaultUrl info.Name info.Version = none →
        (TryGetSecret b secrets version).secretInfo = some { info with Value := str "" })) := by
  unfold TryGetSecret
  cases hs : secrets version with
  | none => simp
  | some info =>
    have hn := hc info hs
    cases hg : b.GetSecret info.VaultUrl info.Name info.Version with
    | none => simp [hn, hg]
    | some v => simp [hn, hg]

/-- C5, witness: the cached identifier `ident` with a fetch that succeeds. -/
theorem TryGetSecret_found_iff_cached_witness :
    (∀ info, smallCache (str "ident") = some info →
      (okBackend (str "s3cret")).NewClient info.VaultUrl = true) ∧
    smallCache (str "ident") =
      some ⟨str "vault", str "url", str "name", str "1", str "ident", true, str ""⟩ ∧
    (okBackend (str "s3cret")).GetSecret (str "url") (str "name") (str "1") = some (str "s3cret") ∧
    (TryGetSecret (okBackend (str "s3cret")) smallCache (str "ident")).found = true ∧
    (TryGetSecret (okBackend (str "s3cret")) smallCache (str "ident")).secretInfo =
      some ⟨str "vault", str "url", str "name", str "1", str "ident", true, str "s3cret"⟩ :=
  ⟨fun _ _ => rfl, rfl, rfl,
    ((TryGetSecret_found_iff_cached (okBackend (str "s3cret")) smallCache (str "ident")
      (fun _ _ => rfl)).2.2 _ rfl).1,
    ((TryGetSecret_found_iff_cached (okBackend (str "s3cret")) smallCache (str "ident")
      (fun _ _ => rfl)).2.2 _ rfl).2.1 _ rfl⟩

theorem TryGetSecret_examples :
    (TryGetSecret (okBackend (str "s3cret")) smallCache (str "other")).found = false ∧
    (TryGetSecret (okBackend (str "s3cret")) smallCache (str "other")).calls = [] ∧
    (TryGetSecret failingBackend smallCache (str "ident")).found = true ∧
    (TryGetSecret failingBackend smallCache (str "ident")).secretInfo =
      some ⟨str "vault", str "url", str "name", str "1", str "ident", true, str ""⟩ := by
  decide

end Discretion
